import Mathlib

/-!
Verification development for the PSUT crawler (`src/scrape/scraper.py`).

The Python source is shallowly embedded below:

* `clean_content` — the regex-based content normalizer (rules modelled
  character-by-character on `List Char`, matching Python `re.sub` semantics
  for the concrete patterns used by the source);
* `urljoin` — a model of `urllib.parse.urljoin` restricted to URLs without
  query/params/fragment components (none of the verified properties involve
  them; the path component of the model therefore carries any such suffix
  verbatim, which is harmless for the inputs considered);
* `crawl_page` / `crawl_links` — the recursive traversal engine, with an
  explicit fuel argument standing for the call stack (the recursion depth of
  the source is bounded by the `depth > max_depth` guard, so any fuel of at
  least `max_depth + 1` yields the behaviour of the source; this is proved
  as a fuel-stability theorem), and a ghost `fetch_log` field recording each
  URL handed to the external fetcher, in order;
* `finalize` — the run-summary computation.
-/

/-! ## Character-run collapsing (regex rules 1 and 5 of `clean_content`)

Rule 1 of the source is `re.sub(r'\n\x7b3,\x7d', '\n\n', text)`: every maximal
run of three or more newlines is replaced by exactly two, shorter runs are
left alone.  Rule 5 is `re.sub(r' +', ' ', text)`: every maximal run of
spaces is replaced by a single space.  Both are instances of capping every
maximal run of a character `c` at a threshold `t`: a run of length `k`
becomes a run of length `min k t`.  (Python regex matching is greedy and
leftmost, so each match is exactly a maximal run.) -/

/-- Cap every maximal run of the character `c` at length `t`; `n` counts the
pending run of `c` read so far. -/
def capRunsGo (c : Char) (t : Nat) : List Char → Nat → List Char
  | [], n => List.replicate (min n t) c
  | a :: rest, n =>
    if a = c then capRunsGo c t rest (n + 1)
    else List.replicate (min n t) c ++ a :: capRunsGo c t rest 0

/-- Cap every maximal run of `c` at length `t`.  With `c = '\n'`, `t = 2`
this is rule 1 of `clean_content`; with `c = ' '`, `t = 1` it is rule 5. -/
def capRuns (c : Char) (t : Nat) (l : List Char) : List Char :=
  capRunsGo c t l 0

/-- Newline-collapsing rule of `clean_content`:
`re.sub` of three-or-more newlines to exactly two. -/
def collapseNewlines (s : String) : String :=
  String.mk (capRuns '\n' 2 s.data)

/-- Space-collapsing rule of `clean_content`:
`re.sub` of one-or-more spaces to a single space. -/
def collapseSpaces (s : String) : String :=
  String.mk (capRuns ' ' 1 s.data)

/-- Decides whether every maximal run of `c` in the list, with `n` pending
occurrences of `c` already read, has length at most `t`. -/
def runsBounded (c : Char) (t : Nat) : List Char → Nat → Bool
  | [], n => decide (n ≤ t)
  | a :: rest, n =>
    if a = c then runsBounded c t rest (n + 1)
    else decide (n ≤ t) && runsBounded c t rest 0

theorem runsBounded_replicate_append (c : Char) (t : Nat) (l : List Char) :
    ∀ (m n : Nat), runsBounded c t (List.replicate m c ++ l) n = runsBounded c t l (n + m) := by
  intro m
  induction m with
  | zero => intro n; simp [List.replicate]
  | succ k ih =>
    intro n
    simp only [List.replicate_succ, List.cons_append, List.append_eq, runsBounded,
      eq_self_iff_true, if_true]
    rw [ih]
    congr 1
    omega

theorem runsBounded_capRunsGo (c : Char) (t : Nat) (l : List Char) :
    ∀ n, runsBounded c t (capRunsGo c t l n) 0 = true := by
  induction l with
  | nil =>
    intro n
    simp only [capRunsGo]
    rw [show List.replicate (min n t) c = List.replicate (min n t) c ++ ([] : List Char) by simp,
      runsBounded_replicate_append]
    simp only [runsBounded, Nat.zero_add, decide_eq_true_eq]
    omega
  | cons a rest ih =>
    intro n
    simp only [capRunsGo]
    by_cases h : a = c
    · rw [if_pos h]; exact ih (n + 1)
    · rw [if_neg h, runsBounded_replicate_append]
      simp only [runsBounded, if_neg h, Nat.zero_add, Bool.and_eq_true, decide_eq_true_eq]
      exact ⟨by omega, ih 0⟩

theorem runsBounded_le (c : Char) (t : Nat) (l : List Char) :
    ∀ n, runsBounded c t l n = true → n ≤ t := by
  induction l with
  | nil => intro n h; simpa [runsBounded] using h
  | cons a rest ih =>
    intro n h
    simp only [runsBounded] at h
    by_cases hac : a = c
    · rw [if_pos hac] at h
      have := ih (n + 1) h
      omega
    · rw [if_neg hac, Bool.and_eq_true, decide_eq_true_eq] at h
      exact h.1

theorem capRunsGo_of_runsBounded (c : Char) (t : Nat) (l : List Char) :
    ∀ n, runsBounded c t l n = true → capRunsGo c t l n = List.replicate n c ++ l := by
  induction l with
  | nil =>
    intro n h
    simp only [runsBounded, decide_eq_true_eq] at h
    simp [capRunsGo, Nat.min_eq_left h]
  | cons a rest ih =>
    intro n h
    simp only [runsBounded] at h
    by_cases hac : a = c
    · rw [if_pos hac] at h
      simp only [capRunsGo, if_pos hac]
      rw [ih (n + 1) h, hac, List.replicate_succ' n c]
      simp
    · rw [if_neg hac, Bool.and_eq_true, decide_eq_true_eq] at h
      simp only [capRunsGo, if_neg hac]
      rw [ih 0 h.2, Nat.min_eq_left h.1]
      simp [List.replicate]

theorem capRuns_idempotent (c : Char) (t : Nat) (l : List Char) :
    capRuns c t (capRuns c t l) = capRuns c t l := by
  have hb := runsBounded_capRunsGo c t l 0
  have := capRunsGo_of_runsBounded c t (capRunsGo c t l 0) 0 hb
  simpa [capRuns, List.replicate] using this

/-! ## Remaining rules of `clean_content`

Rules 2–4 of the source are `re.sub` calls with the patterns
(2) asterisk-bullet link whose target starts with `javascript:void`,
(3) image markup replaced by its alt text,
(4) whitespace-only-label link markup removed.
Each pattern is a sequence of literal fragments separated by lazy
`.*?` gaps (which never cross a newline); pattern 4 additionally has a
greedy whitespace run, handled separately below.  The matcher models
Python regex backtracking: the gap before each literal grows from the
shortest, retrying the continuation at every size. -/

/-- Result of a pattern-tail match: the list of gap captures (one per
literal) and the remaining input after the match. -/
abbrev MatchRes := Option (List (List Char) × List Char)

/-- Match `gap ++ lit ++ continuation`, the gap being the shortest run of
non-newline characters for which the rest of the pattern (the continuation
`k`) also matches, mirroring a lazy regex gap with backtracking. -/
def scanGap (lit : List Char) (k : List Char → MatchRes) : List Char → MatchRes
  | [] =>
    if lit.isPrefixOf ([] : List Char) then
      match k (([] : List Char).drop lit.length) with
      | some (gs, rest) => some (([] : List Char) :: gs, rest)
      | none => none
    else none
  | a :: s2 =>
    match (if lit.isPrefixOf (a :: s2) then
             match k ((a :: s2).drop lit.length) with
             | some (gs, rest) => some (([] : List Char) :: gs, rest)
             | none => none
           else none : MatchRes) with
    | some r => some r
    | none =>
      if a = '\n' then none
      else
        match scanGap lit k s2 with
        | some (g :: gs, rest) => some ((a :: g) :: gs, rest)
        | _ => none

/-- Match a sequence of literals, each preceded by a lazy non-newline gap. -/
def matchTail : List (List Char) → List Char → MatchRes
  | [], s => some ([], s)
  | lit :: more, s => scanGap lit (fun s2 => matchTail more s2) s

/-- Match a whole pattern anchored at the current position: the first
literal must occur immediately, the remaining literals after lazy gaps. -/
def matchAt (lits : List (List Char)) (s : List Char) : MatchRes :=
  match lits with
  | [] => some ([], s)
  | lit :: more => if lit.isPrefixOf s then matchTail more (s.drop lit.length) else none

/-- Global leftmost substitution of a literals-and-lazy-gaps pattern,
as performed by `re.sub`: scan left to right, replace each
(non-overlapping) match by `repl` applied to the gap captures.  The fuel
equals the input length in the wrapper below; since the first literal of
every pattern used is nonempty, each match consumes at least one character
and the fuel never runs out. -/
def subAllGo (lits : List (List Char)) (repl : List (List Char) → List Char) :
    Nat → List Char → List Char
  | 0, s => s
  | _ + 1, [] => []
  | fuel + 1, a :: s =>
    match matchAt lits (a :: s) with
    | some (gs, rest) => repl gs ++ subAllGo lits repl fuel rest
    | none => a :: subAllGo lits repl fuel s

/-- Global substitution wrapper (fuel = input length, see `subAllGo`). -/
def subAll (lits : List (List Char)) (repl : List (List Char) → List Char)
    (s : List Char) : List Char :=
  subAllGo lits repl s.length s

/-- Rule 2 of `clean_content`: remove bullet links to `javascript:void`
targets. -/
def removeNavArtifacts (l : List Char) : List Char :=
  subAll ["* [".data, "](javascript:void".data, ")".data] (fun _ => []) l

/-- Rule 3 of `clean_content`: replace image markup by its alt text (the
first gap capture). -/
def imageToAlt (l : List Char) : List Char :=
  subAll ["![".data, "](".data, ")".data] (fun gs => gs.headD []) l

/-- Python whitespace: the characters for which Python `str.isspace()`
holds (CPython's whitespace table): the six ASCII whitespace characters,
the information separators U+001C to U+001F, next line U+0085, no-break
space U+00A0, ogham space mark U+1680, the spaces U+2000 to U+200A, line
separator U+2028, paragraph separator U+2029, narrow no-break space
U+202F, medium mathematical space U+205F, and ideographic space U+3000.
Python 3's `str.strip()` (source lines 39 and 126) strips exactly this
class, and the whitespace class of a `str` regex (rule 4 of
`clean_content`, line 121) matches exactly this class. -/
def pyWs (c : Char) : Bool :=
  c = ' ' || c = '\t' || c = '\n' || c = '\r' || c = '\x0b' || c = '\x0c' ||
  ('\x1c' ≤ c && c ≤ '\x1f') || c = '\x85' || c = '\xa0' || c = '\u1680' ||
  ('\u2000' ≤ c && c ≤ '\u200a') || c = '\u2028' || c = '\u2029' ||
  c = '\u202f' || c = '\u205f' || c = '\u3000'

/-- Match, immediately after an opening bracket, the rest of the pattern of
rule 4: a greedy whitespace run, then the literal of a closing bracket and
an opening parenthesis, then a lazy non-newline gap and the closing
parenthesis.  The greedy run followed by the non-whitespace closing bracket
is equivalent to taking the maximal whitespace run. -/
def emptyAnchorMatch (s : List Char) : Option (List Char) :=
  let s1 := s.dropWhile pyWs
  if "](".data.isPrefixOf s1 then
    match matchTail [")".data] (s1.drop 2) with
    | some (_, rest) => some rest
    | none => none
  else none

/-- Rule 4 of `clean_content`: remove link markup whose label is
whitespace-only (fuelled scan; fuel = input length in the wrapper). -/
def removeEmptyLinksGo : Nat → List Char → List Char
  | 0, s => s
  | _ + 1, [] => []
  | fuel + 1, a :: s =>
    if a = '[' then
      match emptyAnchorMatch s with
      | some rest => removeEmptyLinksGo fuel rest
      | none => a :: removeEmptyLinksGo fuel s
    else a :: removeEmptyLinksGo fuel s

/-- Rule 4 wrapper. -/
def removeEmptyLinks (l : List Char) : List Char :=
  removeEmptyLinksGo l.length l

/-- Python `str.strip` on a character list. -/
def pyStripList (l : List Char) : List Char :=
  (((l.dropWhile pyWs).reverse.dropWhile pyWs)).reverse

/-- Python `str.strip`. -/
def pyStrip (s : String) : String :=
  String.mk (pyStripList s.data)

/-- The content normalizer of the source (`clean_content` in
`scraper.py`): the five `re.sub` rules in source order, then `strip`. -/
def clean_content (markdown_text : String) : String :=
  let cleaned := collapseNewlines markdown_text
  let cleaned := String.mk (removeNavArtifacts cleaned.data)
  let cleaned := String.mk (imageToAlt cleaned.data)
  let cleaned := String.mk (removeEmptyLinks cleaned.data)
  let cleaned := collapseSpaces cleaned
  pyStrip cleaned

/-! ## Link resolution (`urllib.parse.urljoin` model)

The source resolves every discovered link with
`urljoin(base_url, link_url)`.  The model below follows the CPython
implementation of `urlparse`/`urljoin` for the scheme, network-location and
path components; query, params and fragment are not split out (no verified
property involves them — a URL containing them simply carries the suffix
inside the modelled path). -/

/-- Parsed URL: scheme, network location, path (see module comment). -/
structure UrlParts where
  scheme : String
  netloc : String
  path : String
deriving Repr, DecidableEq

/-- Characters allowed in a URL scheme after the first (CPython
`scheme_chars`). -/
def schemeChar (c : Char) : Bool :=
  c.isAlpha || c.isDigit || c = '+' || c = '-' || c = '.'

/-- Split a leading `scheme:` off a URL, CPython style: there must be a
colon, the part before it must be nonempty, start with a letter and
consist of scheme characters; the scheme is lowercased. -/
def splitScheme (l : List Char) : Option (List Char × List Char) :=
  let pre := l.takeWhile (fun c => !(c == ':'))
  if pre.length < l.length ∧ pre ≠ [] ∧ (pre.headD 'a').isAlpha ∧ pre.all schemeChar then
    some (pre.map Char.toLower, l.drop (pre.length + 1))
  else none

/-- CPython `urlparse` (scheme, netloc, path only), with a default scheme
used when the URL carries none — `urljoin` passes the base's scheme. -/
def pyUrlparse (s : String) (defaultScheme : String) : UrlParts :=
  let (sch, rest) :=
    match splitScheme s.data with
    | some (sc, r) => (String.mk sc, r)
    | none => (defaultScheme, s.data)
  if "//".data.isPrefixOf rest then
    let after := rest.drop 2
    let net := after.takeWhile (fun c => !(c == '/' || c == '?' || c == '#'))
    ⟨sch, String.mk net, String.mk (after.drop net.length)⟩
  else ⟨sch, "", String.mk rest⟩

/-- CPython `urlunparse` restricted to scheme, netloc, path (when a netloc
is present, a path not starting with a slash gets one prepended, as in
CPython `urlunsplit`). -/
def pyUrlunparse (u : UrlParts) : String :=
  let netPart :=
    if u.netloc ≠ "" ∨ "//".data.isPrefixOf u.path.data then
      let p := if u.path ≠ "" ∧ u.path.data.headD '/' ≠ '/' then "/" ++ u.path else u.path
      "//" ++ u.netloc ++ p
    else u.path
  if u.scheme ≠ "" then u.scheme ++ ":" ++ netPart else netPart

/-- Schemes treated as hierarchical for relative resolution (CPython
`uses_relative`). -/
def usesRelative : List String :=
  ["", "ftp", "http", "gopher", "nntp", "imap", "wais", "file", "https",
   "shttp", "mms", "prospero", "rtsp", "rtspu", "sftp", "svn", "svn+ssh",
   "ws", "wss"]

/-- Schemes that use a network location (CPython `uses_netloc`). -/
def usesNetloc : List String :=
  ["", "ftp", "http", "gopher", "nntp", "telnet", "imap", "wais", "file",
   "mms", "https", "shttp", "snews", "prospero", "rtsp", "rtspu", "rsync",
   "svn", "svn+ssh", "sftp", "nfs", "git", "git+ssh", "ws", "wss"]

/-- Split a character list on a separator character, Python `str.split`
semantics (`cur` accumulates the current field, reversed). -/
def splitOnCharGo (c : Char) (cur : List Char) : List Char → List (List Char)
  | [] => [cur.reverse]
  | a :: s =>
    if a = c then cur.reverse :: splitOnCharGo c [] s
    else splitOnCharGo c (a :: cur) s

/-- Python `str.split` on one character. -/
def splitOnChar (c : Char) (l : List Char) : List (List Char) :=
  splitOnCharGo c [] l

/-- Join fields with a slash (Python `'/'.join`). -/
def joinSlash : List (List Char) → List Char
  | [] => []
  | [x] => x
  | x :: rest => x ++ '/' :: joinSlash rest

/-- CPython `urljoin` segment resolution: `..` pops the last kept segment
(silently on empty), `.` is dropped, anything else is kept (`acc` is the
kept segments, most recent first). -/
def resolveSegsGo (acc : List (List Char)) : List (List Char) → List (List Char)
  | [] => acc.reverse
  | seg :: rest =>
    if seg = "..".data then resolveSegsGo acc.tail rest
    else if seg = ".".data then resolveSegsGo acc rest
    else resolveSegsGo (seg :: acc) rest

/-- CPython `urljoin`: keep the first and last segments, drop empty
segments in between (`segments[1:-1] = filter(None, segments[1:-1])`). -/
def filterMiddleTail : List (List Char) → List (List Char)
  | [] => []
  | [x] => [x]
  | x :: rest => if x = [] then filterMiddleTail rest else x :: filterMiddleTail rest

/-- Wrapper of `filterMiddleTail` keeping the first segment. -/
def filterMiddle : List (List Char) → List (List Char)
  | [] => []
  | [x] => [x]
  | x :: rest => x :: filterMiddleTail rest

/-- Model of `urllib.parse.urljoin` (CPython algorithm; scheme, netloc and
path components — see module comment). -/
def urljoin (base url : String) : String :=
  if base = "" then url
  else if url = "" then base
  else
    let b := pyUrlparse base ""
    let u := pyUrlparse url b.scheme
    if u.scheme ≠ b.scheme ∨ u.scheme ∉ usesRelative then url
    else if u.scheme ∈ usesNetloc ∧ u.netloc ≠ "" then pyUrlunparse u
    else
      let netloc := if u.scheme ∈ usesNetloc then b.netloc else u.netloc
      if u.path = "" then pyUrlunparse ⟨u.scheme, netloc, b.path⟩
      else
        let segsU := splitOnChar '/' u.path.data
        let segments :=
          if u.path.data.headD ' ' = '/' then segsU
          else
            let bparts := splitOnChar '/' b.path.data
            let bparts := if bparts.getLast? = some ([] : List Char) then bparts
                          else bparts.dropLast
            filterMiddle (bparts ++ segsU)
        let resolved := resolveSegsGo [] segments
        let resolved :=
          if segments.getLast? = some ".".data ∨ segments.getLast? = some "..".data then
            resolved ++ [([] : List Char)]
          else resolved
        let pathChars := joinSlash resolved
        let path := if pathChars = [] then "/" else String.mk pathChars
        pyUrlunparse ⟨u.scheme, netloc, path⟩

/-! ## The traversal engine (`crawl_page` in `scraper.py`)

The source is a recursive closure over the mutable `visited_urls` set, the
`scraped_data` list and the constants `base_url` and `max_pages`; the depth
cap is the literal `10` and `max_pages` the local `3000`.  Both caps are
parameters here (the claims quantify over them) and are instantiated with
the source's literals in `scrape_psut_all_links`.  The external fetcher
`crawler.arun` is a parameter mapping a URL to an outcome: either a result
object or a raised exception (caught by the source's `except` clause).  The
state carries a ghost `fetch_log` recording each URL handed to the fetcher,
in call order; it affects nothing else. -/

/-- A scraped page record (`page_data` dict of the source). -/
structure PageRecord where
  url : String
  content : String
  depth : Nat
deriving Repr, DecidableEq

/-- A discovered link as delivered by the fetcher: either a dict (its
`href` value, defaulting to the empty string when absent, is used) or any
other object (its string form is used). -/
inductive LinkData where
  | dict (href : String)
  | other (s : String)
deriving Repr, DecidableEq

/-- The `link_url` extracted from a link object by the source. -/
def linkHref : LinkData → String
  | LinkData.dict href => href
  | LinkData.other s => s

/-- The fetcher's result object: success flag, markdown text (the empty
string models a falsy/absent markdown), whether a truthy `links` attribute
is present, and the `links["internal"]` list (empty when the key is
absent). -/
structure FetchResult where
  success : Bool
  markdown : String
  hasLinks : Bool
  internalLinks : List LinkData
deriving Repr, DecidableEq

/-- Outcome of `crawler.arun`: a result, or a raised exception (whose
message is irrelevant to the traversal). -/
inductive FetchOutcome where
  | ok (r : FetchResult)
  | exn (msg : String)
deriving DecidableEq

/-- Traversal state: the visited-URL set, the accumulated records, and the
ghost fetch log (see module comment). -/
structure CrawlState where
  visited_urls : Finset String
  scraped_data : List PageRecord
  fetch_log : List String

/-- The run's initial state. -/
def initState : CrawlState := ⟨∅, [], []⟩

/-- Python `pat in s` substring containment on character lists. -/
def listContainsSub (pat : List Char) : List Char → Bool
  | [] => pat.isEmpty
  | a :: t => pat.isPrefixOf (a :: t) || listContainsSub pat t

/-- Python `pat in s` substring containment on strings. -/
def containsSubstr (s pat : String) : Bool :=
  listContainsSub pat.data s.data

/-- The scope filter of the source, generalized over its two hardcoded
needles: the crawl proceeds only when the URL string contains the domain
needle and contains the required path needle
(`"psut.edu.jo" not in url or "/ar" not in url → return`). -/
def inScope (url domain required : String) : Bool :=
  containsSubstr url domain && containsSubstr url required

/-- Host (network location) of a URL, used to state the spec's host-based
reading of the scope check. -/
def urlHost (s : String) : String :=
  (pyUrlparse s "").netloc

/-- The link-expansion loop of the source: for each discovered link, take
its href; if nonempty, resolve it against the run's base URL; if the
resolved URL is not yet visited, visit it (the rate-limit sleep has no
state effect and is not modelled).  `visitChild` is the recursive visit at
`depth + 1`, supplied by `crawl_page`. -/
def crawl_links (visitChild : String → CrawlState → CrawlState) (base_url : String) :
    List LinkData → CrawlState → CrawlState
  | [], st => st
  | link_data :: rest, st =>
    let link_url := linkHref link_data
    let st2 :=
      if link_url = "" then st
      else
        let full_url := urljoin base_url link_url
        if full_url ∈ st.visited_urls then st
        else visitChild full_url st
    crawl_links visitChild base_url rest st2

/-- The recursive page visit of the source (`crawl_page`).  Guards in
source order: depth cap or page cap reached → return; already visited →
return; out of scope → return.  Otherwise the URL is claimed (added to the
visited set), fetched (logged in the ghost `fetch_log`; a raised exception
is caught and ends the visit), and on a successful fetch with nonempty
markdown the content is cleaned; if its stripped length exceeds 100 the
record is appended and, when a truthy `links` attribute exists, the
internal links are expanded at `depth + 1`.  The `fuel` argument bounds the
recursion for Lean; every fuel of at least `max_depth + 1 - depth` produces
the same result (`crawl_page_fuel_stable`), so it is no restriction. -/
def crawl_page (crawler : String → FetchOutcome) (base_url : String)
    (max_pages max_depth : Nat) : Nat → String → Nat → CrawlState → CrawlState
  | 0, _, _, st => st
  | fuel + 1, url, depth, st =>
    if max_depth < depth ∨ max_pages ≤ st.visited_urls.card then st
    else if url ∈ st.visited_urls then st
    else if inScope url "psut.edu.jo" "/ar" = false then st
    else
      let st1 : CrawlState :=
        ⟨insert url st.visited_urls, st.scraped_data, st.fetch_log ++ [url]⟩
      match crawler url with
      | FetchOutcome.exn _ => st1
      | FetchOutcome.ok r =>
        if r.success = true ∧ r.markdown ≠ "" then
          let cleaned := clean_content r.markdown
          if 100 < (pyStrip cleaned).length then
            let st2 : CrawlState :=
              ⟨st1.visited_urls, st1.scraped_data ++ [⟨url, cleaned, depth⟩], st1.fetch_log⟩
            if r.hasLinks then
              crawl_links
                (fun u s => crawl_page crawler base_url max_pages max_depth fuel u (depth + 1) s)
                base_url r.internalLinks st2
            else st2
          else st1
        else st1

/-- The top-level run (`scrape_psut_all_links` in the source, minus file
output): base URL `https://www.psut.edu.jo/ar`, `max_pages = 3000` (the
source's local constant), depth cap `10` (the source's literal guard);
fuel 12 exceeds the `max_depth + 1` needed for fuel-stability. -/
def scrape_psut_all_links (crawler : String → FetchOutcome) : CrawlState :=
  crawl_page crawler "https://www.psut.edu.jo/ar" 3000 10 12
    "https://www.psut.edu.jo/ar" 0 initState

/-- The run summary (the `summary` dict of the source). -/
structure RunSummary where
  total_pages : Nat
  urls : List String
  total_characters : Nat
deriving Repr, DecidableEq

/-- Summary computation of the source:
`total_pages = len(scraped_data)`, `urls = [page['url'] ...]`,
`total_characters = sum(len(page['content']) ...)`. -/
def finalize (records : List PageRecord) : RunSummary :=
  { total_pages := records.length
    urls := records.map (fun r => r.url)
    total_characters := (records.map (fun r => r.content.length)).sum }

/-- The summary of a full run. -/
def scraping_summary (crawler : String → FetchOutcome) : RunSummary :=
  finalize (scrape_psut_all_links crawler).scraped_data

/-! ## Branch characterization of one `crawl_page` visit -/

theorem crawl_page_depth_exceeded (crawler : String → FetchOutcome) (base : String)
    (K D fuel : Nat) (url : String) (depth : Nat) (st : CrawlState)
    (h : D < depth) :
    crawl_page crawler base K D fuel url depth st = st := by
  cases fuel with
  | zero => rfl
  | succ f => simp only [crawl_page]; rw [if_pos (Or.inl h)]

theorem crawl_page_pages_full (crawler : String → FetchOutcome) (base : String)
    (K D fuel : Nat) (url : String) (depth : Nat) (st : CrawlState)
    (h : K ≤ st.visited_urls.card) :
    crawl_page crawler base K D fuel url depth st = st := by
  cases fuel with
  | zero => rfl
  | succ f => simp only [crawl_page]; rw [if_pos (Or.inr h)]

theorem crawl_page_already_visited (crawler : String → FetchOutcome) (base : String)
    (K D fuel : Nat) (url : String) (depth : Nat) (st : CrawlState)
    (h : url ∈ st.visited_urls) :
    crawl_page crawler base K D fuel url depth st = st := by
  cases fuel with
  | zero => rfl
  | succ f =>
    simp only [crawl_page]
    by_cases hg : D < depth ∨ K ≤ st.visited_urls.card
    · rw [if_pos hg]
    · rw [if_neg hg, if_pos h]

theorem crawl_page_not_in_scope (crawler : String → FetchOutcome) (base : String)
    (K D fuel : Nat) (url : String) (depth : Nat) (st : CrawlState)
    (h : inScope url "psut.edu.jo" "/ar" = false) :
    crawl_page crawler base K D fuel url depth st = st := by
  cases fuel with
  | zero => rfl
  | succ f =>
    simp only [crawl_page]
    by_cases hg : D < depth ∨ K ≤ st.visited_urls.card
    · rw [if_pos hg]
    · rw [if_neg hg]
      by_cases hv : url ∈ st.visited_urls
      · rw [if_pos hv]
      · rw [if_neg hv, if_pos h]

theorem crawl_page_fetch_exn (crawler : String → FetchOutcome) (base : String)
    (K D f : Nat) (url : String) (depth : Nat) (st : CrawlState) (msg : String)
    (hg : ¬(D < depth ∨ K ≤ st.visited_urls.card))
    (hv : url ∉ st.visited_urls)
    (hs : inScope url "psut.edu.jo" "/ar" = true)
    (hf : crawler url = FetchOutcome.exn msg) :
    crawl_page crawler base K D (f + 1) url depth st =
      ⟨insert url st.visited_urls, st.scraped_data, st.fetch_log ++ [url]⟩ := by
  simp only [crawl_page]
  rw [if_neg hg, if_neg hv, if_neg (by simp [hs]), hf]

theorem crawl_page_fetch_failed (crawler : String → FetchOutcome) (base : String)
    (K D f : Nat) (url : String) (depth : Nat) (st : CrawlState) (r : FetchResult)
    (hg : ¬(D < depth ∨ K ≤ st.visited_urls.card))
    (hv : url ∉ st.visited_urls)
    (hs : inScope url "psut.edu.jo" "/ar" = true)
    (hf : crawler url = FetchOutcome.ok r)
    (hfail : ¬(r.success = true ∧ r.markdown ≠ "")) :
    crawl_page crawler base K D (f + 1) url depth st =
      ⟨insert url st.visited_urls, st.scraped_data, st.fetch_log ++ [url]⟩ := by
  simp only [crawl_page]
  rw [if_neg hg, if_neg hv, if_neg (by simp [hs]), hf]
  simp only [if_neg hfail]

theorem crawl_page_rejected_short (crawler : String → FetchOutcome) (base : String)
    (K D f : Nat) (url : String) (depth : Nat) (st : CrawlState) (r : FetchResult)
    (hg : ¬(D < depth ∨ K ≤ st.visited_urls.card))
    (hv : url ∉ st.visited_urls)
    (hs : inScope url "psut.edu.jo" "/ar" = true)
    (hf : crawler url = FetchOutcome.ok r)
    (hok : r.success = true ∧ r.markdown ≠ "")
    (hshort : ¬(100 < (pyStrip (clean_content r.markdown)).length)) :
    crawl_page crawler base K D (f + 1) url depth st =
      ⟨insert url st.visited_urls, st.scraped_data, st.fetch_log ++ [url]⟩ := by
  simp only [crawl_page]
  rw [if_neg hg, if_neg hv, if_neg (by simp [hs]), hf]
  simp only [if_pos hok, if_neg hshort]

theorem crawl_page_accepted (crawler : String → FetchOutcome) (base : String)
    (K D f : Nat) (url : String) (depth : Nat) (st : CrawlState) (r : FetchResult)
    (hg : ¬(D < depth ∨ K ≤ st.visited_urls.card))
    (hv : url ∉ st.visited_urls)
    (hs : inScope url "psut.edu.jo" "/ar" = true)
    (hf : crawler url = FetchOutcome.ok r)
    (hok : r.success = true ∧ r.markdown ≠ "")
    (hlong : 100 < (pyStrip (clean_content r.markdown)).length) :
    crawl_page crawler base K D (f + 1) url depth st =
      (if r.hasLinks then
        crawl_links (fun u s => crawl_page crawler base K D f u (depth + 1) s) base
          r.internalLinks
          ⟨insert url st.visited_urls,
           st.scraped_data ++ [⟨url, clean_content r.markdown, depth⟩],
           st.fetch_log ++ [url]⟩
      else
        ⟨insert url st.visited_urls,
         st.scraped_data ++ [⟨url, clean_content r.markdown, depth⟩],
         st.fetch_log ++ [url]⟩) := by
  simp only [crawl_page]
  rw [if_neg hg, if_neg hv, if_neg (by simp [hs]), hf]
  simp only [if_pos hok, if_pos hlong]

/-! ## Claims C9, C8, C2 -/

/-- C9: the newline-collapsing rule (three or more newlines become exactly
two) and the space-collapsing rule (runs of two or more spaces become one)
of the normalizer are each idempotent on their own output: applying the
individual rule twice equals applying it once. -/
theorem claim_C9_rules_idempotent (s : String) :
    collapseNewlines (collapseNewlines s) = collapseNewlines s ∧
    collapseSpaces (collapseSpaces s) = collapseSpaces s := by
  constructor
  · show String.mk (capRuns '\n' 2 (capRuns '\n' 2 s.data)) = String.mk (capRuns '\n' 2 s.data)
    rw [capRuns_idempotent]
  · show String.mk (capRuns ' ' 1 (capRuns ' ' 1 s.data)) = String.mk (capRuns ' ' 1 s.data)
    rw [capRuns_idempotent]

/-- C8: the run summary satisfies `totalPages = len(records)`, `urls` is
the record URLs in insertion order, and `totalCharacters` is the sum of the
content lengths; on three records of content lengths 120, 5000 and 30 it
yields 5150 total characters and the URLs in order.  (`finalize` is a plain
Lean function, hence pure and total.) -/
theorem claim_C8_finalize_summary (records : List PageRecord) (r1 r2 r3 : PageRecord)
    (h1 : r1.content.length = 120) (h2 : r2.content.length = 5000)
    (h3 : r3.content.length = 30) :
    (finalize records).total_pages = records.length ∧
    (finalize records).urls = records.map (fun r => r.url) ∧
    (finalize records).total_characters = (records.map (fun r => r.content.length)).sum ∧
    (finalize [r1, r2, r3]).total_characters = 5150 ∧
    (finalize [r1, r2, r3]).urls = [r1.url, r2.url, r3.url] := by
  refine ⟨rfl, rfl, rfl, ?_, rfl⟩
  simp [finalize, h1, h2, h3]

/-- Concrete record with 120 characters of content, for the C8 witness. -/
def sampleRec120 : PageRecord := ⟨"https://www.psut.edu.jo/ar", String.mk (List.replicate 120 'a'), 0⟩

/-- Concrete record with 5000 characters of content, for the C8 witness. -/
def sampleRec5000 : PageRecord := ⟨"https://www.psut.edu.jo/ar/b", String.mk (List.replicate 5000 'b'), 1⟩

/-- Concrete record with 30 characters of content, for the C8 witness. -/
def sampleRec30 : PageRecord := ⟨"https://www.psut.edu.jo/ar/c", String.mk (List.replicate 30 'c'), 1⟩

/-- Witness for C8 at concrete records of content lengths 120, 5000, 30. -/
theorem claim_C8_finalize_summary_witness :
    (finalize [sampleRec120, sampleRec5000, sampleRec30]).total_characters = 5150 ∧
    (finalize [sampleRec120, sampleRec5000, sampleRec30]).urls =
      ["https://www.psut.edu.jo/ar", "https://www.psut.edu.jo/ar/b", "https://www.psut.edu.jo/ar/c"] := by
  have hlen : ∀ (n : Nat) (c : Char), (String.mk (List.replicate n c)).length = n := by
    intro n c
    show (List.replicate n c).length = n
    simp
  have h := claim_C8_finalize_summary [] sampleRec120 sampleRec5000 sampleRec30
    (hlen 120 'a') (hlen 5000 'b') (hlen 30 'c')
  exact ⟨h.2.2.2.1, h.2.2.2.2⟩

/-- C2 counterexample: the spec reads the scope check as host-based, but
the source checks substring containment on the whole URL string
(`"psut.edu.jo" not in url`).  At the URL
`https://evil.com/psut.edu.jo/ar` the source's check passes although the
host `evil.com` does not contain the domain, so the claimed equivalence is
false at this input. -/
theorem claim_C2_counterexample :
    ¬ (inScope "https://evil.com/psut.edu.jo/ar" "psut.edu.jo" "/ar" = true ↔
       (containsSubstr (urlHost "https://evil.com/psut.edu.jo/ar") "psut.edu.jo" = true ∧
        containsSubstr "https://evil.com/psut.edu.jo/ar" "/ar" = true)) := by
  decide

/-- C2 (amended): the in-scope check returns true iff the URL, taken as a
string, contains the domain needle and contains the required path needle;
a URL failing the source's check (`psut.edu.jo`, `/ar`) is returned from
without being claimed or fetched — the state, including the visited set
and the ghost fetch log, is unchanged. -/
theorem claim_C2_scope_filter (url domain required : String)
    (crawler : String → FetchOutcome) (base : String)
    (K D fuel depth : Nat) (st : CrawlState)
    (hscope : inScope url "psut.edu.jo" "/ar" = false) :
    (inScope url domain required = true ↔
      (containsSubstr url domain = true ∧ containsSubstr url required = true)) ∧
    crawl_page crawler base K D fuel url depth st = st := by
  constructor
  · simp [inScope, Bool.and_eq_true]
  · exact crawl_page_not_in_scope crawler base K D fuel url depth st hscope

/-- Witness for C2 (amended) at a concrete out-of-scope URL. -/
theorem claim_C2_scope_filter_witness :
    (inScope "https://other.org/x" "other.org" "/x" = true ↔
      (containsSubstr "https://other.org/x" "other.org" = true ∧
       containsSubstr "https://other.org/x" "/x" = true)) ∧
    crawl_page (fun _ => FetchOutcome.exn "net") "https://www.psut.edu.jo/ar" 3000 10 12
      "https://other.org/x" 0 initState = initState :=
  claim_C2_scope_filter "https://other.org/x" "other.org" "/x"
    (fun _ => FetchOutcome.exn "net") "https://www.psut.edu.jo/ar" 3000 10 12 0 initState
    (by decide)

/-! ## Generic lemmas about the link-expansion loop -/

theorem crawl_links_preserve (P : CrawlState → Prop)
    (visitChild : String → CrawlState → CrawlState) (base : String)
    (hvc : ∀ u s, P s → P (visitChild u s)) :
    ∀ (links : List LinkData) (st : CrawlState), P st → P (crawl_links visitChild base links st) := by
  intro links
  induction links with
  | nil => intro st h; exact h
  | cons l rest ih =>
    intro st h
    simp only [crawl_links]
    apply ih
    by_cases h1 : linkHref l = ""
    · rw [if_pos h1]; exact h
    · rw [if_neg h1]
      by_cases h2 : urljoin base (linkHref l) ∈ st.visited_urls
      · rw [if_pos h2]; exact h
      · rw [if_neg h2]; exact hvc _ _ h

theorem crawl_links_congr (v1 v2 : String → CrawlState → CrawlState) (base : String)
    (h : ∀ u s, v1 u s = v2 u s) :
    ∀ (links : List LinkData) (st : CrawlState),
      crawl_links v1 base links st = crawl_links v2 base links st := by
  intro links
  induction links with
  | nil => intro st; rfl
  | cons l rest ih =>
    intro st
    simp only [crawl_links]
    rw [show (if linkHref l = "" then st
              else if urljoin base (linkHref l) ∈ st.visited_urls then st
              else v1 (urljoin base (linkHref l)) st) =
             (if linkHref l = "" then st
              else if urljoin base (linkHref l) ∈ st.visited_urls then st
              else v2 (urljoin base (linkHref l)) st) by rw [h]]
    exact ih _

/-! ## The run invariant

`CrawlInv K D st` collects the facts preserved by every visit: the visited
set respects the page cap; there are no more records than visited URLs;
record URLs are pairwise distinct and all visited; record depths respect
the depth cap; the ghost fetch log has no duplicates (no URL is ever
fetched twice) and only contains visited URLs. -/

def CrawlInv (K D : Nat) (st : CrawlState) : Prop :=
  st.visited_urls.card ≤ K ∧
  st.scraped_data.length ≤ st.visited_urls.card ∧
  (st.scraped_data.map (fun r => r.url)).Nodup ∧
  (∀ r ∈ st.scraped_data, r.url ∈ st.visited_urls) ∧
  (∀ r ∈ st.scraped_data, r.depth ≤ D) ∧
  st.fetch_log.Nodup ∧
  (∀ u ∈ st.fetch_log, u ∈ st.visited_urls)

theorem crawlInv_initState (K D : Nat) : CrawlInv K D initState := by
  refine ⟨by simp [initState], by simp [initState], by simp [initState],
    by simp [initState], by simp [initState], by simp [initState], by simp [initState]⟩

theorem crawl_page_inv (crawler : String → FetchOutcome) (base : String) (K D : Nat) :
    ∀ (fuel : Nat) (url : String) (depth : Nat) (st : CrawlState),
      CrawlInv K D st → CrawlInv K D (crawl_page crawler base K D fuel url depth st) := by
  intro fuel
  induction fuel with
  | zero => intro url depth st h; exact h
  | succ f ih =>
    intro url depth st h
    simp only [crawl_page]
    by_cases hg : D < depth ∨ K ≤ st.visited_urls.card
    · rw [if_pos hg]; exact h
    · rw [if_neg hg]
      by_cases hv : url ∈ st.visited_urls
      · rw [if_pos hv]; exact h
      · rw [if_neg hv]
        by_cases hsc : inScope url "psut.edu.jo" "/ar" = false
        · rw [if_pos hsc]; exact h
        · rw [if_neg hsc]
          push_neg at hg
          obtain ⟨hK, hlen, hnd, hsub, hdep, hlognd, hlogsub⟩ := h
          have hcard : st.visited_urls.card < K := hg.2
          have hcardins : (insert url st.visited_urls).card = st.visited_urls.card + 1 :=
            Finset.card_insert_of_not_mem hv
          have h1 : CrawlInv K D
              ⟨insert url st.visited_urls, st.scraped_data, st.fetch_log ++ [url]⟩ := by
            refine ⟨by simp only [hcardins]; omega, by simp only [hcardins]; omega,
              hnd, ?_, hdep, ?_, ?_⟩
            · intro r hr; exact Finset.mem_insert_of_mem (hsub r hr)
            · simp only [List.nodup_append, List.nodup_cons, List.nodup_nil]
              refine ⟨hlognd, by simp, ?_⟩
              intro a ha hmem
              simp only [List.mem_singleton] at hmem
              exact hv (hmem ▸ hlogsub a ha)
            · intro u hu
              simp only [List.mem_append, List.mem_singleton] at hu
              rcases hu with hu | hu
              · exact Finset.mem_insert_of_mem (hlogsub u hu)
              · rw [hu]; exact Finset.mem_insert_self _ _
          cases hfc : crawler url with
          | exn m => exact h1
          | ok r =>
            dsimp only
            by_cases hok : r.success = true ∧ r.markdown ≠ ""
            · rw [if_pos hok]
              by_cases hlong : 100 < (pyStrip (clean_content r.markdown)).length
              · rw [if_pos hlong]
                have h2 : CrawlInv K D
                    ⟨insert url st.visited_urls,
                     st.scraped_data ++ [⟨url, clean_content r.markdown, depth⟩],
                     st.fetch_log ++ [url]⟩ := by
                  obtain ⟨h1K, h1len, h1nd, h1sub, h1dep, h1lognd, h1logsub⟩ := h1
                  refine ⟨h1K, ?_, ?_, ?_, ?_, h1lognd, h1logsub⟩
                  · show (st.scraped_data ++
                        [(⟨url, clean_content r.markdown, depth⟩ : PageRecord)]).length ≤
                      (insert url st.visited_urls).card
                    rw [List.length_append, hcardins]
                    simp only [List.length_singleton]
                    omega
                  · simp only [List.map_append, List.map_cons, List.map_nil,
                      List.nodup_append, List.nodup_cons, List.nodup_nil]
                    refine ⟨hnd, by simp, ?_⟩
                    intro a ha hmem
                    simp only [List.mem_singleton] at hmem
                    subst hmem
                    simp only [List.mem_map] at ha
                    obtain ⟨rr, hrr, hrru⟩ := ha
                    exact hv (hrru ▸ hsub rr hrr)
                  · intro rr hrr
                    simp only [List.mem_append, List.mem_singleton] at hrr
                    rcases hrr with hrr | hrr
                    · exact Finset.mem_insert_of_mem (hsub rr hrr)
                    · rw [hrr]; exact Finset.mem_insert_self _ _
                  · intro rr hrr
                    simp only [List.mem_append, List.mem_singleton] at hrr
                    rcases hrr with hrr | hrr
                    · exact hdep rr hrr
                    · rw [hrr]; exact hg.1
                by_cases hlinks : r.hasLinks = true
                · rw [if_pos hlinks]
                  exact crawl_links_preserve (CrawlInv K D) _ base
                    (fun u s hs => ih u (depth + 1) s hs) r.internalLinks _ h2
                · rw [if_neg hlinks]; exact h2
              · rw [if_neg hlong]; exact h1
            · rw [if_neg hok]; exact h1

/-! ## Claims C1 and C10 -/

/-- C1: a run configured with `max_pages = K` produces at most `K` accepted
records, for every crawler (graph), base URL, caps, fuel and start URL: the
size guard is checked before any URL is claimed and each record corresponds
to a distinct claimed URL, so the record count never exceeds the visited
count, which never exceeds `K`. -/
theorem claim_C1_max_pages_cap (crawler : String → FetchOutcome) (base : String)
    (K D fuel : Nat) (url : String) (depth : Nat) :
    (crawl_page crawler base K D fuel url depth initState).scraped_data.length ≤ K := by
  have h := crawl_page_inv crawler base K D fuel url depth initState (crawlInv_initState K D)
  obtain ⟨hK, hlen, _⟩ := h
  omega

/-- C10: every visit operation preserves the accumulator invariant —
record URLs pairwise distinct (each record URL is claimed exactly once and
the claim guard blocks re-visits) and every record depth at most the depth
cap 10; in particular the records of any state reached by a visit from an
invariant state have distinct URLs and depths between 0 and 10. -/
theorem claim_C10_accumulator_invariant (crawler : String → FetchOutcome) (base : String)
    (K fuel : Nat) (url : String) (depth : Nat) (st : CrawlState)
    (h : CrawlInv K 10 st) :
    CrawlInv K 10 (crawl_page crawler base K 10 fuel url depth st) ∧
    ((crawl_page crawler base K 10 fuel url depth st).scraped_data.map
      (fun r => r.url)).Nodup ∧
    (∀ r ∈ (crawl_page crawler base K 10 fuel url depth st).scraped_data, r.depth ≤ 10) := by
  have h2 := crawl_page_inv crawler base K 10 fuel url depth st h
  exact ⟨h2, h2.2.2.1, h2.2.2.2.2.1⟩

/-- Witness for C10: a full concrete run from the initial state (whose
invariant holds) keeps the accumulator invariant. -/
theorem claim_C10_accumulator_invariant_witness :
    CrawlInv 3000 10
      (crawl_page (fun _ => FetchOutcome.exn "net") "https://www.psut.edu.jo/ar" 3000 10 12
        "https://www.psut.edu.jo/ar" 0 initState) :=
  (claim_C10_accumulator_invariant (fun _ => FetchOutcome.exn "net")
    "https://www.psut.edu.jo/ar" 3000 12 "https://www.psut.edu.jo/ar" 0 initState
    (crawlInv_initState 3000 10)).1

/-! ## Fuel stability: the recursion of the source terminates

The source's recursion is bounded by the depth guard: a visit at depth `d`
recurses only at depth `d + 1`, and visits deeper than `max_depth` return
immediately.  Accordingly the fuelled model is independent of the fuel as
soon as the fuel is at least `max_depth + 1 - depth`: the traversal
stabilizes, which is exactly termination of the source's unbounded
recursion on every (finite or infinite, cyclic or acyclic) link graph. -/

theorem crawl_page_fuel_stable (crawler : String → FetchOutcome) (base : String) (K D : Nat) :
    ∀ (f1 f2 : Nat) (url : String) (depth : Nat) (st : CrawlState),
      D + 1 - depth ≤ f1 → D + 1 - depth ≤ f2 →
      crawl_page crawler base K D f1 url depth st =
        crawl_page crawler base K D f2 url depth st := by
  intro f1
  induction f1 with
  | zero =>
    intro f2 url depth st h1 h2
    have hd : D < depth := by omega
    rw [crawl_page_depth_exceeded crawler base K D 0 url depth st hd,
      crawl_page_depth_exceeded crawler base K D f2 url depth st hd]
  | succ a ih =>
    intro f2 url depth st h1 h2
    by_cases hd : D < depth
    · rw [crawl_page_depth_exceeded crawler base K D (a + 1) url depth st hd,
        crawl_page_depth_exceeded crawler base K D f2 url depth st hd]
    · cases f2 with
      | zero => omega
      | succ b =>
        simp only [crawl_page]
        by_cases hg : D < depth ∨ K ≤ st.visited_urls.card
        · rw [if_pos hg, if_pos hg]
        · rw [if_neg hg, if_neg hg]
          by_cases hv : url ∈ st.visited_urls
          · rw [if_pos hv, if_pos hv]
          · rw [if_neg hv, if_neg hv]
            by_cases hsc : inScope url "psut.edu.jo" "/ar" = false
            · rw [if_pos hsc, if_pos hsc]
            · rw [if_neg hsc, if_neg hsc]
              cases hfc : crawler url with
              | exn m => rfl
              | ok r =>
                dsimp only
                by_cases hok : r.success = true ∧ r.markdown ≠ ""
                · rw [if_pos hok, if_pos hok]
                  by_cases hlong : 100 < (pyStrip (clean_content r.markdown)).length
                  · rw [if_pos hlong, if_pos hlong]
                    by_cases hlinks : r.hasLinks = true
                    · rw [if_pos hlinks, if_pos hlinks]
                      exact crawl_links_congr _ _ base
                        (fun u s => ih b u (depth + 1) s (by omega) (by omega)) _ _
                    · rw [if_neg hlinks, if_neg hlinks]
                  · rw [if_neg hlong, if_neg hlong]
                · rw [if_neg hok, if_neg hok]

/-! ## Claim C3: cycle safety -/

/-- Markdown of 150 identical characters: long enough to pass the
100-character threshold after cleaning. -/
def sampleLongMarkdown : String := String.mk (List.replicate 150 'a')

/-- A synthetic fetcher describing a two-node cycle: the root page links to
page `b`, and page `b` links back to the root. -/
def cyclicFetcher : String → FetchOutcome := fun u =>
  if u = "https://www.psut.edu.jo/ar" then
    FetchOutcome.ok ⟨true, sampleLongMarkdown, true, [LinkData.dict "/ar/b"]⟩
  else if u = "https://www.psut.edu.jo/ar/b" then
    FetchOutcome.ok ⟨true, sampleLongMarkdown, true, [LinkData.dict "/ar"]⟩
  else FetchOutcome.exn "404"

set_option maxRecDepth 1000000 in
/-- C3: the traversal terminates on every link graph, cyclic ones included
— the result is independent of the fuel once the fuel covers the depth
guard, so the recursion stabilizes; each URL is fetched at most once (the
ghost fetch log of a run has no duplicates); every fetched URL has been
added to the visited set (the claim precedes the fetch); a visit of an
already-visited URL returns immediately with the state unchanged; and on
the concrete two-node cycle (root links to `b`, `b` links back) the run
fetches each node exactly once and terminates. -/
theorem claim_C3_cycle_safety (crawler : String → FetchOutcome) (base url : String)
    (K D fuel depth : Nat) (st : CrawlState) :
    (∀ f1 f2, D + 1 ≤ f1 → D + 1 ≤ f2 →
      crawl_page crawler base K D f1 url 0 st = crawl_page crawler base K D f2 url 0 st) ∧
    (crawl_page crawler base K D fuel url depth initState).fetch_log.Nodup ∧
    (∀ u ∈ (crawl_page crawler base K D fuel url depth initState).fetch_log,
      u ∈ (crawl_page crawler base K D fuel url depth initState).visited_urls) ∧
    (∀ (u : String) (d f : Nat) (s : CrawlState), u ∈ s.visited_urls →
      crawl_page crawler base K D f u d s = s) ∧
    (scrape_psut_all_links cyclicFetcher).fetch_log =
      ["https://www.psut.edu.jo/ar", "https://www.psut.edu.jo/ar/b"] := by
  have hinv := crawl_page_inv crawler base K D fuel url depth initState (crawlInv_initState K D)
  refine ⟨?_, hinv.2.2.2.2.2.1, hinv.2.2.2.2.2.2, ?_, ?_⟩
  · intro f1 f2 h1 h2
    exact crawl_page_fuel_stable crawler base K D f1 f2 url 0 st (by omega) (by omega)
  · intro u d f s hu
    exact crawl_page_already_visited crawler base K D f u d s hu
  · decide

/-- Witness for C3 at concrete inputs: fuel stability at fuels 11 and 12,
and the immediate return on an already-visited URL. -/
theorem claim_C3_cycle_safety_witness :
    (crawl_page (fun _ => FetchOutcome.exn "net") "https://www.psut.edu.jo/ar" 3000 10 11
        "https://www.psut.edu.jo/ar" 0 initState =
      crawl_page (fun _ => FetchOutcome.exn "net") "https://www.psut.edu.jo/ar" 3000 10 12
        "https://www.psut.edu.jo/ar" 0 initState) ∧
    (crawl_page (fun _ => FetchOutcome.exn "net") "https://www.psut.edu.jo/ar" 3000 10 12
        "https://www.psut.edu.jo/ar" 0 ⟨{"https://www.psut.edu.jo/ar"}, [], []⟩ =
      ⟨{"https://www.psut.edu.jo/ar"}, [], []⟩) := by
  have h := claim_C3_cycle_safety (fun _ => FetchOutcome.exn "net") "https://www.psut.edu.jo/ar"
    "https://www.psut.edu.jo/ar" 3000 10 12 0 initState
  exact ⟨h.1 11 12 (by omega) (by omega),
    h.2.2.2.1 "https://www.psut.edu.jo/ar" 0 12 _ (by simp)⟩

/-! ## Claim C5: depth cap and discovery paths -/

/-- One link-graph edge of a run: page `u`, when fetched, yields a result
whose internal links contain a link with nonempty href resolving (against
the run's base URL) to `w`.  Edges out of accepted pages are a subset of
these, so a discovery path along accepted pages is in particular a path of
`linkEdge` steps. -/
def linkEdge (crawler : String → FetchOutcome) (base : String) (u w : String) : Prop :=
  ∃ (r : FetchResult) (l : LinkData), crawler u = FetchOutcome.ok r ∧
    l ∈ r.internalLinks ∧ linkHref l ≠ "" ∧ w = urljoin base (linkHref l)

/-- A link path of length `k` from `u` to `v` in the run's link graph. -/
inductive Reaches (crawler : String → FetchOutcome) (base : String) :
    String → String → Nat → Prop
  | refl (u : String) : Reaches crawler base u u 0
  | head {u w v : String} {k : Nat} : linkEdge crawler base u w →
      Reaches crawler base w v k → Reaches crawler base u v (k + 1)

theorem crawl_links_visited_src (visitChild : String → CrawlState → CrawlState)
    (base : String) (R : String → String → Prop) :
    ∀ (links : List LinkData) (st : CrawlState) (v : String),
      (∀ l ∈ links, ∀ (s : CrawlState) (w : String),
          w ∈ (visitChild (urljoin base (linkHref l)) s).visited_urls →
          w ∈ s.visited_urls ∨ R (urljoin base (linkHref l)) w) →
      v ∈ (crawl_links visitChild base links st).visited_urls →
      v ∈ st.visited_urls ∨
        ∃ l ∈ links, linkHref l ≠ "" ∧ R (urljoin base (linkHref l)) v := by
  intro links
  induction links with
  | nil => intro st v _ hv; exact Or.inl hv
  | cons l rest ih =>
    intro st v hR hv
    simp only [crawl_links] at hv
    have hrest := ih _ v (fun l2 hl2 => hR l2 (List.mem_cons_of_mem l hl2)) hv
    rcases hrest with hst2 | ⟨l2, hl2, hne, hRv⟩
    · by_cases h1 : linkHref l = ""
      · rw [if_pos h1] at hst2; exact Or.inl hst2
      · rw [if_neg h1] at hst2
        by_cases h2 : urljoin base (linkHref l) ∈ st.visited_urls
        · rw [if_pos h2] at hst2; exact Or.inl hst2
        · rw [if_neg h2] at hst2
          rcases hR l (List.mem_cons_self l rest) st v hst2 with hst | hRv
          · exact Or.inl hst
          · exact Or.inr ⟨l, List.mem_cons_self l rest, h1, hRv⟩
    · exact Or.inr ⟨l2, List.mem_cons_of_mem l hl2, hne, hRv⟩

theorem crawl_page_visited_reach (crawler : String → FetchOutcome) (base : String)
    (K D : Nat) :
    ∀ (fuel : Nat) (url : String) (depth : Nat) (st : CrawlState) (v : String),
      v ∈ (crawl_page crawler base K D fuel url depth st).visited_urls →
      v ∈ st.visited_urls ∨
        ∃ k, Reaches crawler base url v k ∧ depth + k ≤ D := by
  intro fuel
  induction fuel with
  | zero => intro url depth st v hv; exact Or.inl hv
  | succ f ih =>
    intro url depth st v hv
    simp only [crawl_page] at hv
    by_cases hg : D < depth ∨ K ≤ st.visited_urls.card
    · rw [if_pos hg] at hv; exact Or.inl hv
    · rw [if_neg hg] at hv
      push_neg at hg
      by_cases hvis : url ∈ st.visited_urls
      · rw [if_pos hvis] at hv; exact Or.inl hv
      · rw [if_neg hvis] at hv
        by_cases hsc : inScope url "psut.edu.jo" "/ar" = false
        · rw [if_pos hsc] at hv; exact Or.inl hv
        · rw [if_neg hsc] at hv
          have hself : v = url →
              v ∈ st.visited_urls ∨ ∃ k, Reaches crawler base url v k ∧ depth + k ≤ D := by
            intro he
            subst he
            exact Or.inr ⟨0, Reaches.refl v, by omega⟩
          cases hfc : crawler url with
          | exn m =>
            rw [hfc] at hv
            dsimp only at hv
            rcases Finset.mem_insert.mp hv with he | hm
            · exact hself he
            · exact Or.inl hm
          | ok r =>
            rw [hfc] at hv
            dsimp only at hv
            by_cases hok : r.success = true ∧ r.markdown ≠ ""
            · rw [if_pos hok] at hv
              by_cases hlong : 100 < (pyStrip (clean_content r.markdown)).length
              · rw [if_pos hlong] at hv
                by_cases hlinks : r.hasLinks = true
                · rw [if_pos hlinks] at hv
                  have hcl := crawl_links_visited_src
                    (fun u s => crawl_page crawler base K D f u (depth + 1) s) base
                    (fun u2 w => ∃ k, Reaches crawler base u2 w k ∧ depth + 1 + k ≤ D)
                    r.internalLinks _ v
                    (fun l _ s w hw => ih (urljoin base (linkHref l)) (depth + 1) s w hw)
                    hv
                  rcases hcl with hm | ⟨l, hl, hne, k, hreach, hk⟩
                  · dsimp only at hm
                    rcases Finset.mem_insert.mp hm with he | hm2
                    · exact hself he
                    · exact Or.inl hm2
                  · refine Or.inr ⟨k + 1, Reaches.head ⟨r, l, hfc, hl, hne, rfl⟩ hreach, by omega⟩
                · rw [if_neg hlinks] at hv
                  dsimp only at hv
                  rcases Finset.mem_insert.mp hv with he | hm
                  · exact hself he
                  · exact Or.inl hm
              · rw [if_neg hlong] at hv
                dsimp only at hv
                rcases Finset.mem_insert.mp hv with he | hm
                · exact hself he
                · exact Or.inl hm
            · rw [if_neg hok] at hv
              dsimp only at hv
              rcases Finset.mem_insert.mp hv with he | hm
              · exact hself he
              · exact Or.inl hm

/-- C5: a run with depth cap `D` never visits a node beyond depth `D`:
every visit call with `depth > D` returns with the state unchanged (so
nothing is claimed or fetched); every URL in the visited set of a run from
the initial state is reached from the root along some link path of length
at most `D` (hence its shortest discovery depth is at most `D`), and
likewise every fetched URL. -/
theorem claim_C5_max_depth (crawler : String → FetchOutcome) (base : String)
    (K D fuel : Nat) (root v : String)
    (hv : v ∈ (crawl_page crawler base K D fuel root 0 initState).visited_urls) :
    (∀ (f : Nat) (url : String) (depth : Nat) (st : CrawlState), D < depth →
      crawl_page crawler base K D f url depth st = st) ∧
    (∃ k ≤ D, Reaches crawler base root v k) ∧
    (∀ u ∈ (crawl_page crawler base K D fuel root 0 initState).fetch_log,
      ∃ k ≤ D, Reaches crawler base root u k) := by
  refine ⟨?_, ?_, ?_⟩
  · intro f url depth st hd
    exact crawl_page_depth_exceeded crawler base K D f url depth st hd
  · rcases crawl_page_visited_reach crawler base K D fuel root 0 initState v hv with
      h | ⟨k, hr, hk⟩
    · simp [initState] at h
    · exact ⟨k, by omega, hr⟩
  · intro u hu
    have hlog :=
      (crawl_page_inv crawler base K D fuel root 0 initState (crawlInv_initState K D)).2.2.2.2.2.2
    rcases crawl_page_visited_reach crawler base K D fuel root 0 initState u (hlog u hu) with
      h | ⟨k, hr, hk⟩
    · simp [initState] at h
    · exact ⟨k, by omega, hr⟩

set_option maxRecDepth 1000000 in
/-- Witness for C5 on the concrete two-node cycle: page `b` is visited by
the run, so it is reachable from the root within the depth cap. -/
theorem claim_C5_max_depth_witness :
    ∃ k ≤ 10, Reaches cyclicFetcher "https://www.psut.edu.jo/ar"
      "https://www.psut.edu.jo/ar" "https://www.psut.edu.jo/ar/b" k :=
  (claim_C5_max_depth cyclicFetcher "https://www.psut.edu.jo/ar" 3000 10 12
    "https://www.psut.edu.jo/ar" "https://www.psut.edu.jo/ar/b" (by decide)).2.1

/-! ## Claim C4: link resolution

Auxiliary lemmas: computation of `pyUrlparse` on an absolute http/https
URL with a clean host, and preservation of such URLs by `urljoin`
regardless of the base. -/


theorem splitScheme_http (tail : List Char) :
    splitScheme ('h' :: 't' :: 't' :: 'p' :: ':' :: tail) = some ("http".data, tail) := by
  have hpre : ('h' :: 't' :: 't' :: 'p' :: ':' :: tail).takeWhile (fun c => !(c == ':')) =
      ['h', 't', 't', 'p'] := by
    rw [List.takeWhile_cons_of_pos (by decide), List.takeWhile_cons_of_pos (by decide),
      List.takeWhile_cons_of_pos (by decide), List.takeWhile_cons_of_pos (by decide),
      List.takeWhile_cons_of_neg (by decide)]
  simp only [splitScheme, hpre]
  rw [if_pos ⟨by simp, by decide, by decide, by decide⟩]
  rfl

theorem pyUrlparse_absolute_http (host rest ds : String)
    (hchars : ∀ c ∈ host.data, ¬(c = '/' ∨ c = '?' ∨ c = '#' ∨ c = ':'))
    (hrest : rest = "" ∨ ∃ t, rest.data = '/' :: t) :
    pyUrlparse ("http" ++ "://" ++ host ++ rest) ds = ⟨"http", host, rest⟩ := by
  have hdata : ("http" ++ "://" ++ host ++ rest).data =
      'h' :: 't' :: 't' :: 'p' :: ':' :: '/' :: '/' :: (host.data ++ rest.data) := rfl
  have hptrue : ∀ c ∈ host.data, (fun c => !(c == '/' || c == '?' || c == '#')) c = true := by
    intro c hc
    have h := hchars c hc
    push_neg at h
    simp [h.1, h.2.1, h.2.2.1]
  have htw : (host.data ++ rest.data).takeWhile
      (fun c => !(c == '/' || c == '?' || c == '#')) = host.data := by
    rw [List.takeWhile_append_of_pos hptrue]
    rcases hrest with h | ⟨t, ht⟩
    · rw [h]; simp
    · rw [ht, List.takeWhile_cons_of_neg (by decide)]; simp
  simp only [pyUrlparse, hdata, splitScheme_http]
  rw [if_pos (show ['/', '/'].isPrefixOf ('/' :: '/' :: (host.data ++ rest.data)) = true by
    simp [List.isPrefixOf])]
  have hdrop2 : List.drop 2 ('/' :: '/' :: (host.data ++ rest.data)) = host.data ++ rest.data := rfl
  rw [hdrop2, htw, List.drop_left]

theorem splitScheme_https (tail : List Char) :
    splitScheme ('h' :: 't' :: 't' :: 'p' :: 's' :: ':' :: tail) = some ("https".data, tail) := by
  have hpre : ('h' :: 't' :: 't' :: 'p' :: 's' :: ':' :: tail).takeWhile (fun c => !(c == ':')) =
      ['h', 't', 't', 'p', 's'] := by
    rw [List.takeWhile_cons_of_pos (by decide), List.takeWhile_cons_of_pos (by decide),
      List.takeWhile_cons_of_pos (by decide), List.takeWhile_cons_of_pos (by decide),
      List.takeWhile_cons_of_pos (by decide), List.takeWhile_cons_of_neg (by decide)]
  simp only [splitScheme, hpre]
  rw [if_pos ⟨by simp, by decide, by decide, by decide⟩]
  rfl

theorem pyUrlparse_absolute_https (host rest ds : String)
    (hchars : ∀ c ∈ host.data, ¬(c = '/' ∨ c = '?' ∨ c = '#' ∨ c = ':'))
    (hrest : rest = "" ∨ ∃ t, rest.data = '/' :: t) :
    pyUrlparse ("https" ++ "://" ++ host ++ rest) ds = ⟨"https", host, rest⟩ := by
  have hdata : ("https" ++ "://" ++ host ++ rest).data =
      'h' :: 't' :: 't' :: 'p' :: 's' :: ':' :: '/' :: '/' :: (host.data ++ rest.data) := rfl
  have hptrue : ∀ c ∈ host.data, (fun c => !(c == '/' || c == '?' || c == '#')) c = true := by
    intro c hc
    have h := hchars c hc
    push_neg at h
    simp [h.1, h.2.1, h.2.2.1]
  have htw : (host.data ++ rest.data).takeWhile
      (fun c => !(c == '/' || c == '?' || c == '#')) = host.data := by
    rw [List.takeWhile_append_of_pos hptrue]
    rcases hrest with h | ⟨t, ht⟩
    · rw [h]; simp
    · rw [ht, List.takeWhile_cons_of_neg (by decide)]; simp
  simp only [pyUrlparse, hdata, splitScheme_https]
  rw [if_pos (show ['/', '/'].isPrefixOf ('/' :: '/' :: (host.data ++ rest.data)) = true by
    simp [List.isPrefixOf])]
  have hdrop2 : List.drop 2 ('/' :: '/' :: (host.data ++ rest.data)) = host.data ++ rest.data := rfl
  rw [hdrop2, htw, List.drop_left]

theorem pyUrlunparse_absolute (sch host rest : String)
    (hsch : sch ≠ "") (hhost : host ≠ "")
    (hrest : rest = "" ∨ ∃ t, rest.data = '/' :: t) :
    pyUrlunparse ⟨sch, host, rest⟩ = sch ++ ":" ++ ("//" ++ host ++ rest) := by
  simp only [pyUrlunparse]
  rw [if_pos (Or.inl hhost)]
  have hp : ¬(rest ≠ "" ∧ rest.data.headD '/' ≠ '/') := by
    rcases hrest with h | ⟨t, ht⟩
    · intro hc; exact hc.1 h
    · intro hc; apply hc.2; rw [ht]; rfl
  rw [if_neg hp, if_pos hsch]

theorem urljoin_absolute_preserved (base sch host rest : String)
    (hsch : sch = "http" ∨ sch = "https") (hhost : host ≠ "")
    (hchars : ∀ c ∈ host.data, ¬(c = '/' ∨ c = '?' ∨ c = '#' ∨ c = ':'))
    (hrest : rest = "" ∨ ∃ t, rest.data = '/' :: t) :
    urljoin base (sch ++ "://" ++ host ++ rest) = sch ++ "://" ++ host ++ rest := by
  by_cases hb : base = ""
  · simp only [urljoin]; rw [if_pos hb]
  · rcases hsch with h | h <;> subst h
    · have hne : ("http" ++ "://" ++ host ++ rest : String) ≠ "" := by
        intro hc
        exact absurd
          (show 'h' :: 't' :: 't' :: 'p' :: ':' :: '/' :: '/' :: (host.data ++ rest.data) =
            ([] : List Char) from congrArg String.data hc) (by simp)
      have hu := pyUrlparse_absolute_http host rest (pyUrlparse base "").scheme hchars hrest
      simp only [urljoin]
      rw [if_neg hb, if_neg hne, hu]
      by_cases hbs : ("http" : String) = (pyUrlparse base "").scheme
      · rw [if_neg (show ¬((UrlParts.mk "http" host rest).scheme ≠ (pyUrlparse base "").scheme ∨
            (UrlParts.mk "http" host rest).scheme ∉ usesRelative) by
            push_neg
            exact ⟨hbs, show ("http" : String) ∈ usesRelative by decide⟩)]
        rw [if_pos (show (UrlParts.mk "http" host rest).scheme ∈ usesNetloc ∧
            (UrlParts.mk "http" host rest).netloc ≠ "" from
              ⟨show ("http" : String) ∈ usesNetloc by decide, hhost⟩)]
        rw [pyUrlunparse_absolute "http" host rest (by decide) hhost hrest]
        rw [show ("http" ++ ":" : String) = "http:" by decide]
        apply String.ext
        show "http:".data ++ ("//".data ++ (host.data ++ rest.data)) =
          (("http://".data ++ host.data) ++ rest.data)
        simp
      · rw [if_pos (Or.inl (show (UrlParts.mk "http" host rest).scheme ≠
          (pyUrlparse base "").scheme from hbs))]
    · have hne : ("https" ++ "://" ++ host ++ rest : String) ≠ "" := by
        intro hc
        exact absurd
          (show 'h' :: 't' :: 't' :: 'p' :: 's' :: ':' :: '/' :: '/' :: (host.data ++ rest.data) =
            ([] : List Char) from congrArg String.data hc) (by simp)
      have hu := pyUrlparse_absolute_https host rest (pyUrlparse base "").scheme hchars hrest
      simp only [urljoin]
      rw [if_neg hb, if_neg hne, hu]
      by_cases hbs : ("https" : String) = (pyUrlparse base "").scheme
      · rw [if_neg (show ¬((UrlParts.mk "https" host rest).scheme ≠ (pyUrlparse base "").scheme ∨
            (UrlParts.mk "https" host rest).scheme ∉ usesRelative) by
            push_neg
            exact ⟨hbs, show ("https" : String) ∈ usesRelative by decide⟩)]
        rw [if_pos (show (UrlParts.mk "https" host rest).scheme ∈ usesNetloc ∧
            (UrlParts.mk "https" host rest).netloc ≠ "" from
              ⟨show ("https" : String) ∈ usesNetloc by decide, hhost⟩)]
        rw [pyUrlunparse_absolute "https" host rest (by decide) hhost hrest]
        rw [show ("https" ++ ":" : String) = "https:" by decide]
        apply String.ext
        show "https:".data ++ ("//".data ++ (host.data ++ rest.data)) =
          (("https://".data ++ host.data) ++ rest.data)
        simp
      · rw [if_pos (Or.inl (show (UrlParts.mk "https" host rest).scheme ≠
          (pyUrlparse base "").scheme from hbs))]

/-- State of the traversal immediately after a page is accepted: the URL
has been claimed, its record appended, its fetch logged. -/
def acceptedState (url : String) (depth : Nat) (content : String) (st : CrawlState) : CrawlState :=
  ⟨insert url st.visited_urls, st.scraped_data ++ [⟨url, content, depth⟩], st.fetch_log ++ [url]⟩

/-- A synthetic fetcher whose root page links to a subdirectory page
`/ar/sub/`, which in turn carries the page-relative href `ar/x`; used to
exhibit that links are resolved against the run's base URL (yielding
`/ar/x`), not against the current page (which would yield
`/ar/sub/ar/x`). -/
def relFetcher : String → FetchOutcome := fun u =>
  if u = "https://www.psut.edu.jo/ar" then
    FetchOutcome.ok ⟨true, sampleLongMarkdown, true, [LinkData.dict "/ar/sub/"]⟩
  else if u = "https://www.psut.edu.jo/ar/sub/" then
    FetchOutcome.ok ⟨true, sampleLongMarkdown, true, [LinkData.dict "ar/x"]⟩
  else FetchOutcome.exn "404"

set_option maxRecDepth 1000000 in
/-- C4: discovered links are resolved against the run's base URL (not the
current page's URL) before the recursive visit at `depth + 1` — on an
accepted page the expansion visits exactly `urljoin base href` at
`depth + 1` for each nonempty href, independent of the page's own URL, as
the unfolding below shows, and in the concrete two-level run with a
page-relative href `ar/x` on page `/ar/sub/` the URL fetched next is
`/ar/x` (base-resolved), not `/ar/sub/ar/x`; resolution itself satisfies
`resolve("https://example.org/ar", "/ar/about") =
"https://example.org/ar/about"` and preserves absolute hrefs unchanged,
both on the concrete example `https://other.org/x` and in general. -/
theorem claim_C4_resolution (crawler : String → FetchOutcome)
    (base : String) (K D f : Nat) (url : String) (depth : Nat) (st : CrawlState)
    (r : FetchResult) (l : LinkData) (restLinks : List LinkData)
    (hg : ¬(D < depth ∨ K ≤ st.visited_urls.card))
    (hv : url ∉ st.visited_urls)
    (hs : inScope url "psut.edu.jo" "/ar" = true)
    (hf : crawler url = FetchOutcome.ok r)
    (hok : r.success = true ∧ r.markdown ≠ "")
    (hlong : 100 < (pyStrip (clean_content r.markdown)).length)
    (hlinks : r.hasLinks = true)
    (hil : r.internalLinks = l :: restLinks) :
    urljoin "https://example.org/ar" "/ar/about" = "https://example.org/ar/about" ∧
    urljoin "https://example.org/ar" "https://other.org/x" = "https://other.org/x" ∧
    (∀ (b sch host rest : String), (sch = "http" ∨ sch = "https") → host ≠ "" →
      (∀ c ∈ host.data, ¬(c = '/' ∨ c = '?' ∨ c = '#' ∨ c = ':')) →
      (rest = "" ∨ ∃ t, rest.data = '/' :: t) →
      urljoin b (sch ++ "://" ++ host ++ rest) = sch ++ "://" ++ host ++ rest) ∧
    (crawl_page crawler base K D (f + 1) url depth st =
      crawl_links (fun u s => crawl_page crawler base K D f u (depth + 1) s) base restLinks
        (if linkHref l = "" then acceptedState url depth (clean_content r.markdown) st
         else if urljoin base (linkHref l) ∈
             (acceptedState url depth (clean_content r.markdown) st).visited_urls then
           acceptedState url depth (clean_content r.markdown) st
         else crawl_page crawler base K D f (urljoin base (linkHref l)) (depth + 1)
           (acceptedState url depth (clean_content r.markdown) st))) ∧
    (scrape_psut_all_links relFetcher).fetch_log =
      ["https://www.psut.edu.jo/ar", "https://www.psut.edu.jo/ar/sub/",
       "https://www.psut.edu.jo/ar/x"] := by
  refine ⟨by decide, by decide, ?_, ?_, by decide⟩
  · intro b sch host rest hsch hhost hchars hrest
    exact urljoin_absolute_preserved b sch host rest hsch hhost hchars hrest
  · rw [crawl_page_accepted crawler base K D f url depth st r hg hv hs hf hok hlong,
      if_pos hlinks, hil]
    simp only [crawl_links]
    rfl

set_option maxRecDepth 1000000 in
/-- Witness for C4: the unfolding applied to the concrete two-level run,
yielding the base-resolved fetch order. -/
theorem claim_C4_resolution_witness :
    (scrape_psut_all_links relFetcher).fetch_log =
      ["https://www.psut.edu.jo/ar", "https://www.psut.edu.jo/ar/sub/",
       "https://www.psut.edu.jo/ar/x"] :=
  (claim_C4_resolution relFetcher "https://www.psut.edu.jo/ar" 3000 10 11
    "https://www.psut.edu.jo/ar" 0 initState
    ⟨true, sampleLongMarkdown, true, [LinkData.dict "/ar/sub/"]⟩ (LinkData.dict "/ar/sub/") []
    (by decide) (by decide) (by decide) (by decide) ⟨rfl, by decide⟩ (by decide) rfl
    rfl).2.2.2.2

/-! ## Claims C6 and C7 -/

/-- C6: a successfully fetched page (success flag set, nonempty markdown)
is accepted — record appended, links expanded — if and only if the
normalized content's stripped length exceeds 100 characters; when it does
not, the visit ends with the URL claimed and logged but the accumulator
unchanged and no recursion into the page's links. -/
theorem claim_C6_content_threshold (crawler : String → FetchOutcome) (base : String)
    (K D f : Nat) (url : String) (depth : Nat) (st : CrawlState) (r : FetchResult)
    (hg : ¬(D < depth ∨ K ≤ st.visited_urls.card))
    (hv : url ∉ st.visited_urls)
    (hs : inScope url "psut.edu.jo" "/ar" = true)
    (hf : crawler url = FetchOutcome.ok r)
    (hok : r.success = true ∧ r.markdown ≠ "") :
    (100 < (pyStrip (clean_content r.markdown)).length →
      crawl_page crawler base K D (f + 1) url depth st =
        (if r.hasLinks then
          crawl_links (fun u s => crawl_page crawler base K D f u (depth + 1) s) base
            r.internalLinks (acceptedState url depth (clean_content r.markdown) st)
         else acceptedState url depth (clean_content r.markdown) st)) ∧
    (¬ 100 < (pyStrip (clean_content r.markdown)).length →
      crawl_page crawler base K D (f + 1) url depth st =
        ⟨insert url st.visited_urls, st.scraped_data, st.fetch_log ++ [url]⟩) := by
  constructor
  · intro hlong
    rw [crawl_page_accepted crawler base K D f url depth st r hg hv hs hf hok hlong]
    rfl
  · intro hshort
    exact crawl_page_rejected_short crawler base K D f url depth st r hg hv hs hf hok hshort

/-- Witness for C6 at a concrete too-short page: the URL is claimed and
logged, nothing is scraped, nothing is expanded. -/
theorem claim_C6_content_threshold_witness :
    crawl_page (fun _ => FetchOutcome.ok ⟨true, "tiny", true, [LinkData.dict "/ar/b"]⟩)
      "https://www.psut.edu.jo/ar" 3000 10 (11 + 1) "https://www.psut.edu.jo/ar" 0 initState =
      ⟨insert "https://www.psut.edu.jo/ar" initState.visited_urls, initState.scraped_data,
       initState.fetch_log ++ ["https://www.psut.edu.jo/ar"]⟩ :=
  (claim_C6_content_threshold (fun _ => FetchOutcome.ok ⟨true, "tiny", true, [LinkData.dict "/ar/b"]⟩)
    "https://www.psut.edu.jo/ar" 3000 10 11 "https://www.psut.edu.jo/ar" 0 initState
    ⟨true, "tiny", true, [LinkData.dict "/ar/b"]⟩
    (by decide) (by decide) (by decide) rfl ⟨rfl, by decide⟩).2 (by decide)

/-- C7: a fetcher exception during a visit is caught and local to that
URL — the visit returns normally with only the claim and the fetch log
recorded, never propagating and never aborting the traversal (the
enclosing link loop continues with the remaining links whatever a child
visit produced, third conjunct); a fetch reporting `success = false` or
empty content likewise yields no record and no recursion. -/
theorem claim_C7_fetch_failure_contained (crawler : String → FetchOutcome) (base : String)
    (K D f : Nat) (url : String) (depth : Nat) (st : CrawlState)
    (hg : ¬(D < depth ∨ K ≤ st.visited_urls.card))
    (hv : url ∉ st.visited_urls)
    (hs : inScope url "psut.edu.jo" "/ar" = true) :
    (∀ msg, crawler url = FetchOutcome.exn msg →
      crawl_page crawler base K D (f + 1) url depth st =
        ⟨insert url st.visited_urls, st.scraped_data, st.fetch_log ++ [url]⟩) ∧
    (∀ r, crawler url = FetchOutcome.ok r → ¬(r.success = true ∧ r.markdown ≠ "") →
      crawl_page crawler base K D (f + 1) url depth st =
        ⟨insert url st.visited_urls, st.scraped_data, st.fetch_log ++ [url]⟩) ∧
    (∀ (visitChild : String → CrawlState → CrawlState) (links : List LinkData)
        (l : LinkData) (st2 : CrawlState),
      crawl_links visitChild base (l :: links) st2 =
        crawl_links visitChild base links
          (if linkHref l = "" then st2
           else if urljoin base (linkHref l) ∈ st2.visited_urls then st2
           else visitChild (urljoin base (linkHref l)) st2)) := by
  refine ⟨?_, ?_, ?_⟩
  · intro msg hf
    exact crawl_page_fetch_exn crawler base K D f url depth st msg hg hv hs hf
  · intro r hf hfail
    exact crawl_page_fetch_failed crawler base K D f url depth st r hg hv hs hf hfail
  · intro visitChild links l st2
    simp only [crawl_links]

/-- Witness for C7 at a concrete always-raising fetcher: the visit returns
normally with the URL claimed and logged and nothing else changed. -/
theorem claim_C7_fetch_failure_contained_witness :
    crawl_page (fun _ => FetchOutcome.exn "boom") "https://www.psut.edu.jo/ar" 3000 10 (11 + 1)
      "https://www.psut.edu.jo/ar" 0 initState =
      ⟨insert "https://www.psut.edu.jo/ar" initState.visited_urls, initState.scraped_data,
       initState.fetch_log ++ ["https://www.psut.edu.jo/ar"]⟩ :=
  (claim_C7_fetch_failure_contained (fun _ => FetchOutcome.exn "boom")
    "https://www.psut.edu.jo/ar" 3000 10 11 "https://www.psut.edu.jo/ar" 0 initState
    (by decide) (by decide) (by decide)).1 "boom" rfl
